import Mathlib

/-!
Shallow embedding of the libpt DSV parser (src/DSV.h) and its character
readers (src/StringReader.h), together with theorems checking the
natural-language specification against the code.

The parser state is two booleans, `Escaping` and `InRecord`.  The
configuration (separator and escape characters, returned by the derived
class via `GetSeparator` and `GetEscape`) is modelled as a record of two
characters.  Sink callbacks (`OnRecordStart`, `OnFieldCharacter`,
`OnFieldEnd`, `OnRecordEnd`, `OnReset`) are modelled as events appended to
an output list, in the order the C++ code invokes them.
-/

namespace LibPT

/-- State of a DSVParser: the two booleans, in declaration order of
src/DSV.h. -/
structure DSVState where
  Escaping : Bool
  InRecord : Bool
deriving DecidableEq, Repr

/-- Configuration of a DSVParser: the separator and escape characters,
constant for the lifetime of the parser (returned by `GetSeparator` and
`GetEscape` of the derived class). -/
structure DSVConfig where
  sep : Char
  esc : Char
deriving DecidableEq, Repr

/-- One sink callback invocation, named after the Derived-class methods. -/
inductive Event where
  | OnRecordStart
  | OnFieldCharacter (c : Char)
  | OnFieldEnd
  | OnRecordEnd
  | OnReset
deriving DecidableEq, Repr

/-- Initial state established by the DSVParser constructor:
Escaping(false), InRecord(false). -/
def initState : DSVState := ⟨false, false⟩

/-- Configuration of UnixDSVParser (src/DSV.h): escape is backslash,
separator is colon. -/
def UnixDSVParser : DSVConfig := ⟨':', '\\'⟩

/-- Translation of DSVParser::HandleParsedCharacter (src/DSV.h lines
132-156), branch for branch.  Returns the new state and the sink
callbacks emitted, in invocation order. -/
def HandleParsedCharacter (cfg : DSVConfig) (s : DSVState) (c : Char) :
    DSVState × List Event :=
  if s.Escaping then
    ({ s with Escaping := false }, [Event.OnFieldCharacter c])
  else
    -- if (!InRecord && c != newline) \x7b InRecord = true; OnRecordStart(); \x7d
    let s1 : DSVState :=
      if s.InRecord = false ∧ c ≠ '\n' then { s with InRecord := true } else s
    let evs1 : List Event :=
      if s.InRecord = false ∧ c ≠ '\n' then [Event.OnRecordStart] else []
    if c = cfg.sep then
      (s1, evs1 ++ [Event.OnFieldEnd])
    else if c = cfg.esc then
      ({ s1 with Escaping := true }, evs1)
    else if c = '\n' then
      if s1.InRecord then
        ({ s1 with InRecord := false }, evs1 ++ [Event.OnFieldEnd, Event.OnRecordEnd])
      else
        (s1, evs1)
    else
      (s1, evs1 ++ [Event.OnFieldCharacter c])

/-- Translation of DSVParser::FeedCharacter: delegates to
HandleParsedCharacter. -/
def FeedCharacter (cfg : DSVConfig) (s : DSVState) (c : Char) :
    DSVState × List Event :=
  HandleParsedCharacter cfg s c

/-- Translation of DSVParser::FinishParsing (src/DSV.h lines 87-94): if
InRecord, emit OnFieldEnd, clear both flags, emit OnRecordEnd; otherwise
do nothing. -/
def FinishParsing (s : DSVState) : DSVState × List Event :=
  if s.InRecord then
    (⟨false, false⟩, [Event.OnFieldEnd, Event.OnRecordEnd])
  else
    (s, [])

/-- Translation of DSVParser::Reset (src/DSV.h lines 123-127): clear both
flags and call OnReset on the sink. -/
def Reset (_s : DSVState) : DSVState × List Event :=
  (⟨false, false⟩, [Event.OnReset])

/-- Feeding a list of characters one at a time via FeedCharacter,
collecting all emitted events in stream order. -/
def feedMany (cfg : DSVConfig) (s : DSVState) : List Char → DSVState × List Event
  | [] => (s, [])
  | c :: cs =>
    let r1 := FeedCharacter cfg s c
    let r2 := feedMany cfg r1.1 cs
    (r2.1, r1.2 ++ r2.2)

/-- One public mutating operation on a parser. -/
inductive DSVOp where
  | feed (c : Char)
  | finish
  | reset
deriving DecidableEq, Repr

/-- Applying one public operation to a state. -/
def applyOp (cfg : DSVConfig) (s : DSVState) : DSVOp → DSVState × List Event
  | DSVOp.feed c => FeedCharacter cfg s c
  | DSVOp.finish => FinishParsing s
  | DSVOp.reset => Reset s

/-- Resulting state after a sequence of public operations. -/
def runOps (cfg : DSVConfig) (s : DSVState) : List DSVOp → DSVState
  | [] => s
  | op :: ops => runOps cfg (applyOp cfg s op).1 ops

namespace StringReader

/-- Translation of StringReader::IsEOF (src/StringReader.h line 59): the
reader is exhausted when the current iterator has reached the end.  The
reader is modelled by the list of characters remaining before the end
iterator. -/
def IsEOF (r : List Char) : Bool := r.isEmpty

/-- Translation of StringReader::ReadChar (src/StringReader.h lines
51-57): throw EOFException at the end, otherwise return the current
character and advance. -/
def ReadChar : List Char → Except Unit (Char × List Char)
  | [] => Except.error ()
  | c :: rest => Except.ok (c, rest)

end StringReader

namespace CStringReader

/-- Translation of CStringReader::IsEOF (src/StringReader.h line 96): the
reader is exhausted when the current pointer rests on the NUL terminator.
The reader is modelled by the list of characters remaining before the
terminating NUL of the backing C string. -/
def IsEOF : List Char → Bool
  | [] => true
  | c :: _ => c = '\x00'

/-- Translation of CStringReader::ReadChar (src/StringReader.h lines
88-94): throw EOFException on the NUL terminator, otherwise return the
current character and advance. -/
def ReadChar : List Char → Except Unit (Char × List Char)
  | [] => Except.error ()
  | c :: rest => if c = '\x00' then Except.error () else Except.ok (c, rest)

end CStringReader

/-- If StringReader::ReadChar succeeds, the reader held the returned
character followed by the returned remainder. -/
theorem StringReader_ReadChar_ok {r r1 : List Char} {c : Char}
    (h : StringReader.ReadChar r = Except.ok (c, r1)) : r = c :: r1 := by
  cases r with
  | nil => simp [StringReader.ReadChar] at h
  | cons a as =>
    simp [StringReader.ReadChar] at h
    simp [h.1, h.2]

/-- If CStringReader::ReadChar succeeds, the reader held the returned
character (not NUL) followed by the returned remainder. -/
theorem CStringReader_ReadChar_ok {r r1 : List Char} {c : Char}
    (h : CStringReader.ReadChar r = Except.ok (c, r1)) : r = c :: r1 := by
  cases r with
  | nil => simp [CStringReader.ReadChar] at h
  | cons a as =>
    by_cases ha : a = '\x00'
    · simp [CStringReader.ReadChar, ha] at h
    · simp [CStringReader.ReadChar, ha] at h
      simp [h.1, h.2]

/-- Translation of DSVParser::Parse (src/DSV.h lines 99-109) specialised
to a StringReader: while the reader is not at EOF, feed ReadChar results
to HandleParsedCharacter; a thrown EOFException ends the loop silently.
FinishParsing is not called. -/
def Parse (cfg : DSVConfig) (s : DSVState) (r : List Char) :
    DSVState × List Event :=
  if StringReader.IsEOF r then (s, [])
  else
    match hr : StringReader.ReadChar r with
    | Except.error _ => (s, [])
    | Except.ok (c, r1) =>
      let p := HandleParsedCharacter cfg s c
      let q := Parse cfg p.1 r1
      (q.1, p.2 ++ q.2)
termination_by r.length
decreasing_by
  have hcons := StringReader_ReadChar_ok hr
  subst hcons
  simp

/-- Translation of DSVParser::Parse (src/DSV.h lines 99-109) specialised
to a CStringReader: same loop over the C-string reader. -/
def ParseC (cfg : DSVConfig) (s : DSVState) (r : List Char) :
    DSVState × List Event :=
  if CStringReader.IsEOF r then (s, [])
  else
    match hr : CStringReader.ReadChar r with
    | Except.error _ => (s, [])
    | Except.ok (c, r1) =>
      let p := HandleParsedCharacter cfg s c
      let q := ParseC cfg p.1 r1
      (q.1, p.2 ++ q.2)
termination_by r.length
decreasing_by
  have hcons := CStringReader_ReadChar_ok hr
  subst hcons
  simp

/-- Recogniser for OnRecordStart events. -/
def isRecordStart : Event → Bool
  | Event.OnRecordStart => true
  | _ => false

/-- Recogniser for OnRecordEnd events. -/
def isRecordEnd : Event → Bool
  | Event.OnRecordEnd => true
  | _ => false

/-- Number of OnRecordStart notifications in an event list. -/
def countStarts (evs : List Event) : Nat := evs.countP isRecordStart

/-- Number of OnRecordEnd notifications in an event list. -/
def countEnds (evs : List Event) : Nat := evs.countP isRecordEnd

/-- Contribution of the InRecord flag to the start/end balance. -/
def recVal (s : DSVState) : Nat := if s.InRecord then 1 else 0

/-- Unfolding Parse on an exhausted reader. -/
theorem Parse_nil (cfg : DSVConfig) (s : DSVState) : Parse cfg s [] = (s, []) := by
  rw [Parse]
  simp [StringReader.IsEOF]

/-- Unfolding Parse on a reader with at least one character left. -/
theorem Parse_cons (cfg : DSVConfig) (s : DSVState) (c : Char) (cs : List Char) :
    Parse cfg s (c :: cs) =
      ((Parse cfg (HandleParsedCharacter cfg s c).1 cs).1,
        (HandleParsedCharacter cfg s c).2 ++
          (Parse cfg (HandleParsedCharacter cfg s c).1 cs).2) := by
  rw [Parse]
  simp [StringReader.IsEOF, StringReader.ReadChar]

/-- Unfolding ParseC on an exhausted reader. -/
theorem ParseC_nil (cfg : DSVConfig) (s : DSVState) : ParseC cfg s [] = (s, []) := by
  rw [ParseC]
  simp [CStringReader.IsEOF]

/-- Unfolding ParseC on a reader whose next character is not NUL. -/
theorem ParseC_cons (cfg : DSVConfig) (s : DSVState) (c : Char) (cs : List Char)
    (hc : c ≠ '\x00') :
    ParseC cfg s (c :: cs) =
      ((ParseC cfg (HandleParsedCharacter cfg s c).1 cs).1,
        (HandleParsedCharacter cfg s c).2 ++
          (ParseC cfg (HandleParsedCharacter cfg s c).1 cs).2) := by
  rw [ParseC]
  simp only [CStringReader.IsEOF, CStringReader.ReadChar]
  rw [if_neg (by simp [hc])]
  split
  · rename_i a heq
    rw [if_neg hc] at heq
    cases heq
  · rename_i c1 r1 heq
    rw [if_neg hc] at heq
    cases heq
    rfl

/-- C4: feeding the three characters of a record with no trailing newline
and then calling FinishParsing yields OnRecordStart, OnFieldCharacter a,
OnFieldEnd, OnFieldCharacter b, OnFieldEnd, OnRecordEnd — the same
notification sequence as feeding the newline-terminated record without
FinishParsing. -/
theorem unterminated_record_finish :
    (feedMany UnixDSVParser initState ['a', ':', 'b']).2 ++
        (FinishParsing (feedMany UnixDSVParser initState ['a', ':', 'b']).1).2 =
      [Event.OnRecordStart, Event.OnFieldCharacter 'a', Event.OnFieldEnd,
        Event.OnFieldCharacter 'b', Event.OnFieldEnd, Event.OnRecordEnd] ∧
    (feedMany UnixDSVParser initState ['a', ':', 'b']).2 ++
        (FinishParsing (feedMany UnixDSVParser initState ['a', ':', 'b']).1).2 =
      (feedMany UnixDSVParser initState ['a', ':', 'b', '\n']).2 := by
  constructor <;> decide

/-- C7: feeding a, colon, b, newline from the initial state with the Unix
configuration yields exactly OnRecordStart, OnFieldCharacter a,
OnFieldEnd, OnFieldCharacter b, OnFieldEnd, OnRecordEnd, in that order
and nothing else. -/
theorem roundtrip_colon_record :
    (feedMany UnixDSVParser initState ['a', ':', 'b', '\n']).2 =
      [Event.OnRecordStart, Event.OnFieldCharacter 'a', Event.OnFieldEnd,
        Event.OnFieldCharacter 'b', Event.OnFieldEnd, Event.OnRecordEnd] := by
  decide

/-- C8: Parse over a string-backed character supply emits exactly the
notifications produced by calling FeedCharacter once on each character of
the string in stream order (supply exhaustion silently ends the loop,
and FinishParsing is never invoked); likewise for a C-string supply when
the string has no embedded NUL. -/
theorem Parse_refines_feedMany (cfg : DSVConfig) (s : DSVState) (cs : List Char) :
    Parse cfg s cs = feedMany cfg s cs ∧
    (('\x00' : Char) ∉ cs → ParseC cfg s cs = feedMany cfg s cs) := by
  induction cs generalizing s with
  | nil => exact ⟨Parse_nil cfg s, fun _ => ParseC_nil cfg s⟩
  | cons c rest ih =>
    constructor
    · rw [Parse_cons, feedMany]
      have := (ih (HandleParsedCharacter cfg s c).1).1
      simp [FeedCharacter, this]
    · intro hnn
      have hc : c ≠ '\x00' := by
        intro hcc
        exact hnn (by simp [hcc])
      have hrest : ('\x00' : Char) ∉ rest := by
        intro hr
        exact hnn (by simp [hr])
      rw [ParseC_cons cfg s c rest hc, feedMany]
      have := (ih (HandleParsedCharacter cfg s c).1).2 hrest
      simp [FeedCharacter, this]

/-- Witness for C8 at a concrete NUL-free input. -/
theorem Parse_refines_feedMany_witness :
    ('\x00' : Char) ∉ ['a', ':', 'b'] ∧
    ParseC UnixDSVParser initState ['a', ':', 'b'] =
      feedMany UnixDSVParser initState ['a', ':', 'b'] :=
  ⟨by decide, (Parse_refines_feedMany UnixDSVParser initState ['a', ':', 'b']).2 (by decide)⟩

/-- C2: in any state with Escaping set, FeedCharacter delivers the fed
character verbatim as the single OnFieldCharacter notification and clears
Escaping, whatever the character is; concretely, feeding a, backslash,
colon, b, newline with the Unix configuration yields one record with a
single field whose characters are a, colon, b. -/
theorem escaping_clears_and_delivers (cfg : DSVConfig) (s : DSVState) (c : Char)
    (h : s.Escaping = true) :
    FeedCharacter cfg s c = ({ s with Escaping := false }, [Event.OnFieldCharacter c]) ∧
    (feedMany UnixDSVParser initState ['a', '\\', ':', 'b', '\n']).2 =
      [Event.OnRecordStart, Event.OnFieldCharacter 'a', Event.OnFieldCharacter ':',
        Event.OnFieldCharacter 'b', Event.OnFieldEnd, Event.OnRecordEnd] := by
  constructor
  · simp [FeedCharacter, HandleParsedCharacter, h]
  · decide

/-- Witness for C2 at a concrete escaping state. -/
theorem escaping_clears_and_delivers_witness :
    FeedCharacter UnixDSVParser ⟨true, true⟩ ':' =
      (⟨false, true⟩, [Event.OnFieldCharacter ':']) :=
  (escaping_clears_and_delivers UnixDSVParser ⟨true, true⟩ ':' rfl).1

/-- C3 counterexample: with separator and escape both colon, Escaping
false and InRecord true, feeding colon does not silently set Escaping; the
code takes the separator branch first and emits OnFieldEnd. -/
theorem sep_eq_esc_claim_counterexample :
    ¬ ((HandleParsedCharacter ⟨':', ':'⟩ ⟨false, true⟩ ':').1.Escaping = true ∧
        (HandleParsedCharacter ⟨':', ':'⟩ ⟨false, true⟩ ':').2 = []) := by
  decide

/-- C3 amended: with separator equal to escape, the transition table is
followed with the separator test preceding the escape test, so feeding the
shared character while Escaping is false and InRecord is true emits
OnFieldEnd and leaves Escaping false; escaping takes priority only in the
sense that when Escaping is already true the character is delivered
verbatim. -/
theorem sep_eq_esc_separator_wins (c : Char) (s : DSVState)
    (hrec : s.InRecord = true) :
    (s.Escaping = false →
      HandleParsedCharacter ⟨c, c⟩ s c = (s, [Event.OnFieldEnd])) ∧
    (s.Escaping = true →
      HandleParsedCharacter ⟨c, c⟩ s c =
        ({ s with Escaping := false }, [Event.OnFieldCharacter c])) := by
  constructor
  · intro he
    simp [HandleParsedCharacter, he, hrec]
  · intro he
    simp [HandleParsedCharacter, he]

/-- Witness for the amended C3 at concrete states with colon as both
separator and escape. -/
theorem sep_eq_esc_separator_wins_witness :
    HandleParsedCharacter ⟨':', ':'⟩ ⟨false, true⟩ ':' =
      (⟨false, true⟩, [Event.OnFieldEnd]) ∧
    HandleParsedCharacter ⟨':', ':'⟩ ⟨true, true⟩ ':' =
      (⟨false, true⟩, [Event.OnFieldCharacter ':']) :=
  ⟨(sep_eq_esc_separator_wins ':' ⟨false, true⟩ rfl).1 rfl,
    (sep_eq_esc_separator_wins ':' ⟨true, true⟩ rfl).2 rfl⟩

/-- C5: FinishParsing emits OnFieldEnd then OnRecordEnd and clears both
flags when InRecord is true, does nothing when InRecord is false, and a
second FinishParsing in a row emits no notifications. -/
theorem FinishParsing_idempotent (s : DSVState) :
    FinishParsing s =
      (if s.InRecord then ((⟨false, false⟩ : DSVState),
          [Event.OnFieldEnd, Event.OnRecordEnd])
        else (s, [])) ∧
    (FinishParsing (FinishParsing s).1).2 = [] := by
  rcases s with ⟨e, r⟩
  cases r <;> simp [FinishParsing]

/-- C6: with separator and escape both distinct from newline, feeding any
number of newline characters from the initial state emits no
notifications and leaves the parser in the initial state. -/
theorem blank_lines_skipped (cfg : DSVConfig) (h1 : cfg.sep ≠ '\n')
    (h2 : cfg.esc ≠ '\n') (n : Nat) :
    feedMany cfg initState (List.replicate n '\n') = (initState, []) := by
  have hstep : FeedCharacter cfg initState '\n' = (initState, []) := by
    simp [FeedCharacter, HandleParsedCharacter, initState, Ne.symm h1, Ne.symm h2]
  induction n with
  | zero => simp [feedMany]
  | succ n ih =>
    simp [List.replicate_succ, feedMany, hstep, ih]

/-- Witness for C6: two newlines with the Unix configuration produce no
notifications. -/
theorem blank_lines_skipped_witness :
    feedMany UnixDSVParser initState (List.replicate 2 '\n') = (initState, []) :=
  blank_lines_skipped UnixDSVParser (by decide) (by decide) 2

/-- C10: from any state with InRecord and Escaping both true (a dangling
trailing escape), FinishParsing emits exactly OnFieldEnd then OnRecordEnd,
delivers no OnFieldCharacter, and returns the parser to the initial
state. -/
theorem finish_dangling_escape (s : DSVState) (h1 : s.InRecord = true)
    (h2 : s.Escaping = true) :
    FinishParsing s = (initState, [Event.OnFieldEnd, Event.OnRecordEnd]) ∧
    (∀ c : Char, Event.OnFieldCharacter c ∉ (FinishParsing s).2) := by
  constructor
  · simp [FinishParsing, h1, initState]
  · intro c
    simp [FinishParsing, h1]

/-- Witness for C10 at the concrete state with both flags set. -/
theorem finish_dangling_escape_witness :
    FinishParsing ⟨true, true⟩ = (initState, [Event.OnFieldEnd, Event.OnRecordEnd]) :=
  (finish_dangling_escape ⟨true, true⟩ rfl rfl).1

/-- Counting OnRecordStart distributes over event-list concatenation. -/
theorem countStarts_append (l1 l2 : List Event) :
    countStarts (l1 ++ l2) = countStarts l1 + countStarts l2 :=
  List.countP_append _ _ _

/-- Counting OnRecordEnd distributes over event-list concatenation. -/
theorem countEnds_append (l1 l2 : List Event) :
    countEnds (l1 ++ l2) = countEnds l1 + countEnds l2 :=
  List.countP_append _ _ _

/-- One HandleParsedCharacter step preserves the start/end balance: the
new OnRecordStart notifications plus the old InRecord contribution equal
the new OnRecordEnd notifications plus the new InRecord contribution. -/
theorem handle_balance (cfg : DSVConfig) (s : DSVState) (c : Char) :
    countStarts (HandleParsedCharacter cfg s c).2 + recVal s =
      countEnds (HandleParsedCharacter cfg s c).2 +
        recVal (HandleParsedCharacter cfg s c).1 := by
  rcases s with ⟨e, r⟩
  cases e <;> cases r <;> simp only [HandleParsedCharacter] <;> split_ifs <;>
    simp_all [countStarts, countEnds, recVal, isRecordStart, isRecordEnd]

/-- Feeding any character list preserves the start/end balance. -/
theorem feedMany_balance (cfg : DSVConfig) (cs : List Char) :
    ∀ s : DSVState,
      countStarts (feedMany cfg s cs).2 + recVal s =
        countEnds (feedMany cfg s cs).2 + recVal (feedMany cfg s cs).1 := by
  induction cs with
  | nil => intro s; simp [feedMany, countStarts, countEnds]
  | cons c rest ih =>
    intro s
    have h1 := handle_balance cfg s c
    have h2 := ih (HandleParsedCharacter cfg s c).1
    simp only [feedMany, FeedCharacter, countStarts_append, countEnds_append]
    omega

/-- FinishParsing emits no OnRecordStart, emits exactly as many
OnRecordEnd notifications as the InRecord flag requires, and leaves the
flag clear. -/
theorem finish_counts (s : DSVState) :
    countStarts (FinishParsing s).2 = 0 ∧
    countEnds (FinishParsing s).2 = recVal s ∧
    recVal (FinishParsing s).1 = 0 := by
  rcases s with ⟨e, r⟩
  cases r <;>
    simp [FinishParsing, countStarts, countEnds, recVal, isRecordStart, isRecordEnd]

/-- C1: for every character sequence fed from the initial state, the
number of OnRecordStart notifications equals the number of OnRecordEnd
notifications plus one exactly when InRecord is true and plus zero
otherwise, and after a subsequent FinishParsing the two counts are
equal. -/
theorem start_end_balanced (cfg : DSVConfig) (cs : List Char) :
    countStarts (feedMany cfg initState cs).2 =
      countEnds (feedMany cfg initState cs).2 +
        recVal (feedMany cfg initState cs).1 ∧
    countStarts ((feedMany cfg initState cs).2 ++
        (FinishParsing (feedMany cfg initState cs).1).2) =
      countEnds ((feedMany cfg initState cs).2 ++
        (FinishParsing (feedMany cfg initState cs).1).2) := by
  have hb := feedMany_balance cfg cs initState
  have hf := finish_counts (feedMany cfg initState cs).1
  have h0 : recVal initState = 0 := rfl
  constructor
  · omega
  · rw [countStarts_append, countEnds_append]
    omega

/-- One HandleParsedCharacter step preserves the invariant that Escaping
implies InRecord, provided the escape character is not newline. -/
theorem handle_escaping_invariant (cfg : DSVConfig) (hesc : cfg.esc ≠ '\n')
    (s : DSVState) (hs : s.Escaping = true → s.InRecord = true) (c : Char) :
    (HandleParsedCharacter cfg s c).1.Escaping = true →
    (HandleParsedCharacter cfg s c).1.InRecord = true := by
  rcases s with ⟨e, r⟩
  cases e with
  | true =>
    intro hcontra
    exfalso
    simp [HandleParsedCharacter] at hcontra
  | false =>
    by_cases hsep : c = cfg.sep
    · intro hcontra
      exfalso
      simp only [HandleParsedCharacter] at hcontra
      rw [if_pos hsep] at hcontra
      simp at hcontra
      split at hcontra <;> simp at hcontra
    · by_cases hescc : c = cfg.esc
      · subst hescc
        have hcn : cfg.esc ≠ '\n' := hesc
        intro _
        cases r with
        | true => simp [HandleParsedCharacter, hsep, hcn]
        | false => simp [HandleParsedCharacter, hsep, hcn]
      · by_cases hn : c = '\n'
        · subst hn
          intro hcontra
          exfalso
          simp [HandleParsedCharacter, hsep, hescc] at hcontra
          split at hcontra <;> simp at hcontra
        · intro hcontra
          exfalso
          simp [HandleParsedCharacter, hsep, hescc, hn] at hcontra
          split at hcontra <;> simp at hcontra

/-- Every public parser operation preserves the invariant that Escaping
implies InRecord, provided the escape character is not newline. -/
theorem applyOp_escaping_invariant (cfg : DSVConfig) (hesc : cfg.esc ≠ '\n')
    (s : DSVState) (hs : s.Escaping = true → s.InRecord = true) (op : DSVOp) :
    (applyOp cfg s op).1.Escaping = true → (applyOp cfg s op).1.InRecord = true := by
  cases op with
  | feed c => exact handle_escaping_invariant cfg hesc s hs c
  | finish =>
    rcases s with ⟨e, r⟩
    cases r <;> simp_all [applyOp, FinishParsing]
  | reset => simp [applyOp, Reset]

/-- Any sequence of public parser operations preserves the invariant that
Escaping implies InRecord, provided the escape character is not newline. -/
theorem runOps_escaping_invariant (cfg : DSVConfig) (hesc : cfg.esc ≠ '\n')
    (ops : List DSVOp) :
    ∀ s : DSVState, (s.Escaping = true → s.InRecord = true) →
      (runOps cfg s ops).Escaping = true → (runOps cfg s ops).InRecord = true := by
  induction ops with
  | nil => intro s hs; exact hs
  | cons op rest ih =>
    intro s hs
    simp only [runOps]
    exact ih (applyOp cfg s op).1 (applyOp_escaping_invariant cfg hesc s hs op)

/-- C9: when the escape character is not newline, every state reachable
from the initial state by FeedCharacter, FinishParsing and Reset calls
satisfies that Escaping true implies InRecord true. -/
theorem escaping_implies_inRecord (cfg : DSVConfig) (hesc : cfg.esc ≠ '\n')
    (ops : List DSVOp) :
    (runOps cfg initState ops).Escaping = true →
    (runOps cfg initState ops).InRecord = true :=
  runOps_escaping_invariant cfg hesc ops initState (by simp [initState])

/-- Witness for C9 at a concrete reachable escaping state. -/
theorem escaping_implies_inRecord_witness :
    (runOps UnixDSVParser initState [DSVOp.feed 'a', DSVOp.feed '\\']).InRecord = true :=
  escaping_implies_inRecord UnixDSVParser (by decide)
    [DSVOp.feed 'a', DSVOp.feed '\\'] (by decide)

end LibPT
